import Mathlib

/-!
Verification development for the multimodal emotion-fusion backend
(`backend/app/api/endpoints/gemini.py`).

The Python code is shallowly embedded: Python floats become `ℚ`,
Python dicts become insertion-ordered association lists, Python
truthiness (`or`, `if x:`) is modelled explicitly, and `round(x, 3)`
is modelled as decimal round-half-to-even on `ℚ`.
-/

namespace GeminiFusion

/-- First-match lookup in an insertion-ordered association list with
string keys (models `dict.get` / `dict[k]` access). -/
def lookupStr {α : Type} : List (String × α) → String → Option α
  | [], _ => none
  | (k2, v) :: rest, k => if k2 = k then some v else lookupStr rest k

/-- Lookup with a default value (models `dict.get(k, d)`). -/
def lookupD {α : Type} (m : List (String × α)) (k : String) (d : α) : α :=
  (lookupStr m k).getD d

/-- A JSON value / generic Python value as passed around by the endpoint.
`null` models Python `None`. -/
inductive JsonVal : Type
  | null : JsonVal
  | bool : Bool → JsonVal
  | num : ℚ → JsonVal
  | str : String → JsonVal
  | arr : List JsonVal → JsonVal
  | obj : List (String × JsonVal) → JsonVal

/-- Python truthiness of a JSON/Python value. -/
def truthy : JsonVal → Bool
  | .null => false
  | .bool b => b
  | .num q => if q = 0 then false else true
  | .str s => if s = "" then false else true
  | .arr xs => if xs.isEmpty then false else true
  | .obj fs => if fs.isEmpty then false else true

/-- A Python dict with string keys in insertion order. -/
def PyDict : Type := List (String × JsonVal)

/-- `d.get(k)` on a Python dict (default `None`, i.e. `none`). -/
def pyGet (d : PyDict) (k : String) : Option JsonVal :=
  lookupStr d k

/-- Models the Python expression `a or b` where `a` is a `d.get(k)` result
(`none` = key missing / `None`) and `b` is always-present fallback. -/
def pyOr (a : Option JsonVal) (b : JsonVal) : JsonVal :=
  match a with
  | some v => if truthy v then v else b
  | none => b

/-- First-success alternative without truthiness: models returning the
parse result when no exception occurred, else running the fallback. -/
def pyAlt (a b : Option JsonVal) : Option JsonVal :=
  match a with
  | some v => some v
  | none => b

/-- `EmotionSnapshot` pydantic model. -/
structure EmotionSnapshot where
  dominant_emotion : Option String
  emotion_scores : Option (List (String × ℚ))
deriving DecidableEq

/-- `GestureSnapshot` pydantic model. -/
structure GestureSnapshot where
  label : Option String
  label_ja : Option String
  score : Option ℚ
deriving DecidableEq

/-- `MultimodalEntry` pydantic model (`end` is renamed `end_` because
`end` is reserved in Lean). -/
structure MultimodalEntry where
  timestamp : String
  text : String
  mode : String
  start : Option ℚ
  end_ : Option ℚ
  emotion : Option EmotionSnapshot
  gesture : Option GestureSnapshot
deriving DecidableEq

/-- The fixed gesture-label → emotion lookup table of `_gesture_to_emotion`. -/
def gestureMapping : List (String × String) :=
  [("Thumb_Up", "happy"),
   ("Victory", "happy"),
   ("ILoveYou", "happy"),
   ("Closed_Fist", "angry"),
   ("Thumb_Down", "angry"),
   ("Open_Palm", "neutral"),
   ("Pointing_Up", "neutral")]

/-- `_gesture_to_emotion`: `None`/empty labels are falsy (`if not label`)
and yield no vote; unknown labels yield `mapping.get(label, None) = None`. -/
def gestureToEmotion (label : Option String) : Option String :=
  match label with
  | none => none
  | some l => if l = "" then none else lookupStr gestureMapping l

/-- Prefix test on character lists. -/
def listPrefix : List Char → List Char → Bool
  | [], _ => true
  | _ :: _, [] => false
  | c :: n, c2 :: h => if c = c2 then listPrefix n h else false

/-- Index of the first occurrence of `needle` in `hay`
(models `str.find` for substrings / leftmost regex match position). -/
def findSubIdx (needle : List Char) : List Char → Option Nat
  | [] => if needle.isEmpty then some 0 else none
  | c :: rest =>
    if listPrefix needle (c :: rest) then some 0
    else (findSubIdx needle rest).map (· + 1)

/-- Substring test (models Python `needle in hay`). -/
def hasSub (needle hay : String) : Bool :=
  (findSubIdx needle.toList hay.toList).isSome

def jpHappy : List String := ["嬉", "楽", "最高", "すごい", "よかった", "助かる"]
def jpAngry : List String := ["怒", "ムカ", "最悪", "腹立", "許せ"]
def jpFear : List String := ["怖", "心配", "不安"]
def jpDisgust : List String := ["嫌", "やだ", "きも", "うんざり"]
def jpSad : List String := ["悲", "泣", "つら", "しんど"]
def enHappy : List String := ["great", "awesome", "nice", "love"]
def enAngry : List String := ["angry", "mad", "furious"]
def enFear : List String := ["scared", "afraid", "fear"]
def enSad : List String := ["sad", "unhappy"]
def enSurprise : List String := ["surprised", "wow"]

/-- ASCII lowering of one character (the source's comment notes that only
ASCII is affected by `str.lower` for its keywords). -/
def charLower (c : Char) : Char :=
  if 'A' ≤ c ∧ c ≤ 'Z' then Char.ofNat (c.toNat + 32) else c

/-- `text.lower()` restricted to ASCII letters, the fragment of Python
`str.lower` exercised by the keyword lists (all of which are ASCII or
Japanese). -/
def pyLower (s : String) : String :=
  String.mk (s.toList.map charLower)

/-- `_text_to_emotion`: Japanese keyword groups are checked against the raw
text, then English groups against the ASCII-lowered text (the source binds
`t = text.lower()` once; it is inlined here); first match wins; no match
yields `"neutral"`. -/
def textToEmotion (text : String) : String :=
  if jpHappy.any (fun k => hasSub k text) then "happy"
  else if jpAngry.any (fun k => hasSub k text) then "angry"
  else if jpFear.any (fun k => hasSub k text) then "fear"
  else if jpDisgust.any (fun k => hasSub k text) then "disgust"
  else if jpSad.any (fun k => hasSub k text) then "sad"
  else if hasSub "びっくり" text || hasSub "驚" text then "surprise"
  else if enHappy.any (fun k => hasSub k (pyLower text)) then "happy"
  else if enAngry.any (fun k => hasSub k (pyLower text)) then "angry"
  else if enFear.any (fun k => hasSub k (pyLower text)) then "fear"
  else if enSad.any (fun k => hasSub k (pyLower text)) then "sad"
  else if enSurprise.any (fun k => hasSub k (pyLower text)) then "surprise"
  else "neutral"

/-- First matching rule of an ordered keyword-rule chain wins; no match
yields `"neutral"`. -/
def firstMatch : List ((String → Bool) × String) → String → String
  | [], _ => "neutral"
  | (p, l) :: rest, t => if p t then l else firstMatch rest t

/-- The keyword rules of `_text_to_emotion` in the order the source checks
them: the six Japanese groups on the raw text, then the five English
groups on the lowered text. -/
def keywordChain : List ((String → Bool) × String) :=
  [(fun text => jpHappy.any (fun k => hasSub k text), "happy"),
   (fun text => jpAngry.any (fun k => hasSub k text), "angry"),
   (fun text => jpFear.any (fun k => hasSub k text), "fear"),
   (fun text => jpDisgust.any (fun k => hasSub k text), "disgust"),
   (fun text => jpSad.any (fun k => hasSub k text), "sad"),
   (fun text => hasSub "びっくり" text || hasSub "驚" text, "surprise"),
   (fun text => enHappy.any (fun k => hasSub k (pyLower text)), "happy"),
   (fun text => enAngry.any (fun k => hasSub k (pyLower text)), "angry"),
   (fun text => enFear.any (fun k => hasSub k (pyLower text)), "fear"),
   (fun text => enSad.any (fun k => hasSub k (pyLower text)), "sad"),
   (fun text => enSurprise.any (fun k => hasSub k (pyLower text)), "surprise")]

/-- `score[k] = score.get(k, 0.0) + v`: update in place if the key exists
(keeping its position), otherwise append it (dict insertion order). -/
def addVote : List (String × ℚ) → String → ℚ → List (String × ℚ)
  | [], k, v => [(k, v)]
  | (k2, v2) :: rest, k, v =>
    if k2 = k then (k2, v2 + v) :: rest else (k2, v2) :: addVote rest k v

/-- Models `(e.gesture.score or 1.0)`: `None` and `0.0` are falsy and
give multiplier `1.0`. -/
def pyNum (o : Option ℚ) : ℚ :=
  match o with
  | none => 1
  | some v => if v = 0 then 1 else v

/-- Face/video emotion channel of `_local_aggregate`
(`if e.emotion and e.emotion.dominant_emotion`, weight 0.6). -/
def stepEmotion (sc : List (String × ℚ)) (e : MultimodalEntry) : List (String × ℚ) :=
  match e.emotion with
  | none => sc
  | some es =>
    match es.dominant_emotion with
    | none => sc
    | some d => if d = "" then sc else addVote sc d (3/5)

/-- Gesture channel of `_local_aggregate`
(`if e.gesture and e.gesture.label`, weight 0.3 scaled by the score). -/
def stepGesture (sc : List (String × ℚ)) (e : MultimodalEntry) : List (String × ℚ) :=
  match e.gesture with
  | none => sc
  | some g =>
    match g.label with
    | none => sc
    | some l =>
      if l = "" then sc
      else
        match gestureToEmotion (some l) with
        | none => sc
        | some ge => addVote sc ge (3/10 * pyNum g.score)

/-- Text channel of `_local_aggregate` (`if e.text`, weight 0.1). -/
def stepText (sc : List (String × ℚ)) (e : MultimodalEntry) : List (String × ℚ) :=
  if e.text = "" then sc else addVote sc (textToEmotion e.text) (1/10)

/-- One loop iteration of `_local_aggregate` over a single entry. -/
def stepEntry (sc : List (String × ℚ)) (e : MultimodalEntry) : List (String × ℚ) :=
  stepText (stepGesture (stepEmotion sc e) e) e

/-- The accumulated score mapping of `_local_aggregate`. -/
def computeScores (entries : List MultimodalEntry) : List (String × ℚ) :=
  entries.foldl stepEntry []

/-- Python `max(items, key=value)`: keeps the first item whose value is
not strictly exceeded later (first maximal element wins ties). -/
def maxByFirst : String → ℚ → List (String × ℚ) → String
  | k, _, [] => k
  | k, v, (k2, v2) :: rest =>
    if v2 > v then maxByFirst k2 v2 rest else maxByFirst k v rest

/-- `max(score.items(), key=lambda kv: kv[1])[0]` (only used when the
mapping is non-empty). -/
def argmaxFirst : List (String × ℚ) → String
  | [] => "neutral"
  | (k, v) :: rest => maxByFirst k v rest

/-- `sum(score.values())`. -/
def sumValues (sc : List (String × ℚ)) : ℚ :=
  (sc.map Prod.snd).sum

/-- Round-half-to-even to an integer (Python `round` tie behavior). -/
def rhe (x : ℚ) : ℤ :=
  if x - ⌊x⌋ < 1/2 then ⌊x⌋
  else if x - ⌊x⌋ > 1/2 then ⌊x⌋ + 1
  else if ⌊x⌋ % 2 = 0 then ⌊x⌋ else ⌊x⌋ + 1

/-- `round(x, 3)` modelled on exact rationals. -/
def round3 (x : ℚ) : ℚ :=
  ((rhe (x * 1000) : ℚ)) / 1000

/-- The `intent_map` table of `_local_aggregate`. -/
def intentMap : List (String × String) :=
  [("happy", "前向きな反応を引き出したい/共有したい"),
   ("angry", "不満や問題点を認めさせたい/改善を求めたい"),
   ("fear", "リスクや不安の解消を求めたい"),
   ("sad", "共感や支援を得たい"),
   ("surprise", "情報を確認したい/理解を深めたい"),
   ("disgust", "対象から距離を置きたい/代替案を求めたい"),
   ("neutral", "情報交換や状況確認をしたい")]

/-- The `inner_map` table of `_local_aggregate`. -/
def innerMap : List (String × String) :=
  [("happy", "本当は嬉しくて、もっと良い流れを続けたい。"),
   ("angry", "本当は納得していなくて、変えてほしい。"),
   ("fear", "本当は心配で、失敗を避けたい。"),
   ("sad", "本当は気力が落ちていて、支えが欲しい。"),
   ("surprise", "本当は状況が掴めず、確証が欲しい。"),
   ("disgust", "本当は強い拒否感があり、別の選択肢が欲しい。"),
   ("neutral", "本当は様子見で、追加情報を待っている。")]

/-- The f-string summary template of `_local_aggregate`. -/
def mkSummary (dominant : String) : String :=
  "総合的には『" ++ dominant ++ "』寄り。感情>ジェスチャー>テキストの優先で集約。"

/-- The dict returned by `_local_aggregate`, with its fixed value types. -/
structure LocalResult where
  summary : String
  emotion : String
  intent : String
  inner_voice : String
  confidence : ℚ
  raw : List (String × ℚ)
deriving DecidableEq

/-- `_local_aggregate`. -/
def localAggregate (entries : List MultimodalEntry) : LocalResult :=
  let score := computeScores entries
  let dc : String × ℚ :=
    if score.isEmpty then ("neutral", 1/5)
    else
      let dominant := argmaxFirst score
      let s := sumValues score
      let total := if s = 0 then 1 else s
      (dominant, min 1 (lookupD score dominant 0 / total))
  { summary := mkSummary dc.1
    emotion := dc.1
    intent := lookupD intentMap dc.1 ""
    inner_voice := lookupD innerMap dc.1 ""
    confidence := round3 dc.2
    raw := score }

/-- The closed `EmotionLabel` set of the specification. -/
def emotionLabels : List String :=
  ["happy", "angry", "fear", "sad", "disgust", "surprise", "neutral"]

/-- The field-by-field merge performed by the `analyze` endpoint:
`result.get(k) or agg.get(k)` for the five content fields and
`result.get("raw", None)` for `raw`. -/
def mergeDicts (result : PyDict) (agg : LocalResult) : PyDict :=
  [("summary", pyOr (pyGet result "summary") (.str agg.summary)),
   ("emotion", pyOr (pyGet result "emotion") (.str agg.emotion)),
   ("intent", pyOr (pyGet result "intent") (.str agg.intent)),
   ("inner_voice", pyOr (pyGet result "inner_voice") (.str agg.inner_voice)),
   ("confidence", pyOr (pyGet result "confidence") (.num agg.confidence)),
   ("raw", (pyGet result "raw").getD JsonVal.null)]

/-- The `/gemini/analyze` endpoint. The outcome of `_call_gemini` is passed
as an `Except`: `.error` models any raised exception (missing credential,
timeout, connection failure, bad response), which the endpoint catches by
setting `result = {}`. An empty entry list is rejected with HTTP 400. -/
def analyze (entries : List MultimodalEntry) (llm : Except Unit PyDict) :
    Except Nat PyDict :=
  if entries.isEmpty then .error 400
  else
    let agg := localAggregate entries
    let result : PyDict := match llm with
      | .ok d => d
      | .error _ => []
    .ok (mergeDicts result agg)

/-- JSON whitespace accepted between tokens by `json.loads`. -/
def jsonWsChar (c : Char) : Bool :=
  c = ' ' || c = '\t' || c = '\n' || c = '\r'

/-- Python whitespace (`str.strip` default set, and ASCII `\s` of `re`). -/
def pyWsChar (c : Char) : Bool :=
  c = ' ' || c = '\t' || c = '\n' || c = '\r' || c = '\x0b' || c = '\x0c'

/-- `str.strip()`. -/
def pyStrip (s : String) : String :=
  String.mk (((s.toList.dropWhile pyWsChar).reverse.dropWhile pyWsChar).reverse)

def skipWsL (l : List Char) : List Char :=
  l.dropWhile jsonWsChar

/-- Body of a JSON string literal after the opening quote; escape
sequences are outside the subset modelled here and fail the parse. -/
def strBody : List Char → Option (List Char × List Char)
  | [] => none
  | c :: rest =>
    if c = '\"' then some ([], rest)
    else if c = '\\' then none
    else
      match strBody rest with
      | some (cs, r) => some (c :: cs, r)
      | none => none

def natOfDigits (ds : List Char) : Nat :=
  ds.foldl (fun n c => n * 10 + (c.toNat - 48)) 0

mutual

/-- Recursive-descent model of `json.loads` on the JSON subset exercised
by this endpoint: objects, arrays, escaped-free strings, integers,
booleans and null. `fuel` bounds recursion depth. -/
def parseVal : Nat → List Char → Option (JsonVal × List Char)
  | 0, _ => none
  | fuel + 1, l =>
    match skipWsL l with
    | [] => none
    | c :: rest =>
      if c = '\"' then
        match strBody rest with
        | some (cs, r) => some (.str (String.mk cs), r)
        | none => none
      else if c = 'n' then
        if listPrefix ['u', 'l', 'l'] rest then some (.null, rest.drop 3) else none
      else if c = 't' then
        if listPrefix ['r', 'u', 'e'] rest then some (.bool true, rest.drop 3) else none
      else if c = 'f' then
        if listPrefix ['a', 'l', 's', 'e'] rest then some (.bool false, rest.drop 4) else none
      else if c = '[' then
        match skipWsL rest with
        | ']' :: r => some (.arr [], r)
        | l2 =>
          match parseElems fuel l2 with
          | some (vs, r) => some (.arr vs, r)
          | none => none
      else if c = '\x7b' then
        match skipWsL rest with
        | c2 :: r => if c2 = '\x7d' then some (.obj [], r) else
            match parseMembers fuel (c2 :: r) with
            | some (ms, r2) => some (.obj ms, r2)
            | none => none
        | [] => none
      else if c = '-' then
        match List.span Char.isDigit rest with
        | ([], _) => none
        | (ds, r) => some (.num (-(natOfDigits ds : ℚ)), r)
      else if c.isDigit then
        match List.span Char.isDigit (c :: rest) with
        | (ds, r) => some (.num ((natOfDigits ds : ℚ)), r)
      else none

/-- Comma-separated JSON array elements up to the closing bracket. -/
def parseElems : Nat → List Char → Option (List JsonVal × List Char)
  | 0, _ => none
  | fuel + 1, l =>
    match parseVal fuel l with
    | none => none
    | some (v, r) =>
      match skipWsL r with
      | ',' :: r2 =>
        match parseElems fuel r2 with
        | some (vs, r3) => some (v :: vs, r3)
        | none => none
      | ']' :: r2 => some ([v], r2)
      | _ => none

/-- Comma-separated JSON object members up to the closing brace. -/
def parseMembers : Nat → List Char → Option (List (String × JsonVal) × List Char)
  | 0, _ => none
  | fuel + 1, l =>
    match skipWsL l with
    | c :: rest =>
      if c = '\"' then
        match strBody rest with
        | some (kcs, r2) =>
          match skipWsL r2 with
          | ':' :: r3 =>
            match parseVal fuel r3 with
            | none => none
            | some (v, r4) =>
              match skipWsL r4 with
              | ',' :: r5 =>
                match parseMembers fuel r5 with
                | some (ms, r6) => some ((String.mk kcs, v) :: ms, r6)
                | none => none
              | c2 :: r5 =>
                if c2 = '\x7d' then some ([(String.mk kcs, v)], r5) else none
              | [] => none
          | _ => none
        | none => none
      else none
    | [] => none

end

/-- `json.loads`: parse a complete value and require only trailing
whitespace after it. -/
def miniLoads (s : String) : Option JsonVal :=
  match parseVal (s.length + 1) s.toList with
  | some (v, r) => if (skipWsL r).isEmpty then some v else none
  | none => none

/-- The fence marker. -/
def bt3 : List Char := ['\x60', '\x60', '\x60']

/-- Continuation of the fence regex after an opening marker: the optional
`json` tag, greedy `\s*`, then the lazy capture up to the closing marker. -/
def fenceAfterOpen (l : List Char) : Option (List Char) :=
  let l1 := if listPrefix ['j', 's', 'o', 'n'] l then l.drop 4 else l
  let l2 := l1.dropWhile pyWsChar
  match findSubIdx bt3 l2 with
  | some j => some (l2.take j)
  | none => none

/-- `re.search` for the fenced-code-block pattern
(three backticks, optional `json`, `\s*`, lazy capture, three backticks):
leftmost starting position whose continuation completes a match wins. -/
def fenceSearchL : List Char → Option (List Char)
  | [] => none
  | c :: rest =>
    if listPrefix bt3 (c :: rest) then
      match fenceAfterOpen ((c :: rest).drop 3) with
      | some cap => some cap
      | none => fenceSearchL rest
    else fenceSearchL rest

/-- The captured group of the fence regex on a string, if any. -/
def fenceSearch (txt : String) : Option String :=
  (fenceSearchL txt.toList).map String.mk

/-- Index of the first occurrence of a character (`str.find`). -/
def firstIdxOf (c : Char) : List Char → Option Nat
  | [] => none
  | c2 :: rest => if c2 = c then some 0 else (firstIdxOf c rest).map (· + 1)

/-- Index of the last occurrence of a character (`str.rfind`). -/
def lastIdxOf (c : Char) (l : List Char) : Option Nat :=
  (firstIdxOf c l.reverse).map (fun i => l.length - 1 - i)

/-- The brace-slice fallback of `_parse_json_from_text`: substring from
the first left brace to the last right brace, parsed if `end > start`. -/
def braceSlice (txt : String) : Option JsonVal :=
  let cs := txt.toList
  match firstIdxOf '\x7b' cs, lastIdxOf '\x7d' cs with
  | some s, some e =>
    if s < e then miniLoads (String.mk ((cs.drop s).take (e - s + 1))) else none
  | _, _ => none

/-- `_parse_json_from_text`: empty text yields nothing; if a fenced block
is present its content is parsed and on failure control falls to the
brace slice (the direct parse is not attempted); with no fenced block the
whole text is parsed directly, falling back to the brace slice. -/
def parseJsonFromText (txt : String) : Option JsonVal :=
  if txt = "" then none
  else
    match fenceSearch txt with
    | some candidate => pyAlt (miniLoads candidate) (braceSlice txt)
    | none => pyAlt (miniLoads txt) (braceSlice txt)

/-- `.get` on a general value: succeeds only on dicts, otherwise models
the `AttributeError` swallowed by the caller's `try`. -/
def pyDictGet : JsonVal → String → Except Unit (Option JsonVal)
  | .obj fs, k => .ok (lookupStr fs k)
  | _, _ => .error ()

/-- `x or dflt` for a `get` result: missing and falsy values both fall
back to the default. -/
def orDefault (o : Option JsonVal) (dflt : JsonVal) : JsonVal :=
  match o with
  | some v => if truthy v then v else dflt
  | none => dflt

/-- Iteration of a `for` loop whose body calls `.get` on each element:
only a list iterates successfully; any other (truthy) value raises during
iteration or on the first element's `.get`, which the caller's `try`
turns into an overall failure. -/
def netIter : JsonVal → Except Unit (List JsonVal)
  | .arr xs => .ok xs
  | _ => .error ()

/-- The inner loop of `_extract_texts_from_payload`: collect `part['text']`
values that are non-blank strings. -/
def textsOfParts : List JsonVal → Except Unit (List String)
  | [] => .ok []
  | p :: rest =>
    match pyDictGet p "text" with
    | .error _ => .error ()
    | .ok t =>
      match textsOfParts rest with
      | .error _ => .error ()
      | .ok ts =>
        match t with
        | some (.str s) => if pyStrip s = "" then .ok ts else .ok (s :: ts)
        | _ => .ok ts

/-- The outer loop of `_extract_texts_from_payload` over the candidates. -/
def textsOfCands : List JsonVal → Except Unit (List String)
  | [] => .ok []
  | cand :: rest =>
    match pyDictGet cand "content" with
    | .error _ => .error ()
    | .ok co =>
      match pyDictGet (orDefault co (.obj [])) "parts" with
      | .error _ => .error ()
      | .ok pso =>
        match netIter (orDefault pso (.arr [])) with
        | .error _ => .error ()
        | .ok parts =>
          match textsOfParts parts with
          | .error _ => .error ()
          | .ok ts1 =>
            match textsOfCands rest with
            | .error _ => .error ()
            | .ok ts2 => .ok (ts1 ++ ts2)

/-- `_extract_texts_from_payload`: collect all text fragments; any
exception inside the `try` yields the empty string. -/
def extractTexts (payload : JsonVal) : String :=
  match pyDictGet payload "candidates" with
  | .error _ => ""
  | .ok co =>
    match netIter (orDefault co (.arr [])) with
    | .error _ => ""
    | .ok cands =>
      match textsOfCands cands with
      | .error _ => ""
      | .ok ts => pyStrip (String.intercalate "\n" ts)

/-- The fallback structured minimal response of `_call_gemini`:
`summary` is the stripped text truncated to 200 characters (a fixed
placeholder when the text is empty), with fixed emotion/intent/inner
voice, confidence 0.3 and the full payload as `raw`. -/
def degraded (txt : String) (payload : JsonVal) : PyDict :=
  [("summary", .str ((pyStrip (if txt = "" then "Gemini応答なし" else txt)).take 200)),
   ("emotion", .str "neutral"),
   ("intent", .str "状況確認"),
   ("inner_voice", .str "特に強い内心は読み取りづらい。"),
   ("confidence", .num (3/10)),
   ("raw", payload)]

/-- The tail of `_call_gemini` after a successful HTTP round-trip with
response `payload`: extract the texts, parse, and return the parsed dict
when it is truthy (`if parsed and isinstance(parsed, dict)`), otherwise
the degraded fallback. -/
def callGeminiPost (payload : JsonVal) : PyDict :=
  let txt := extractTexts payload
  match parseJsonFromText txt with
  | some (.obj fields) =>
    match fields with
    | [] => degraded txt payload
    | _ => fields
  | _ => degraded txt payload

/-! ### Helper lemmas -/

theorem lookupStr_mem_snd {α : Type} (m : List (String × α)) (k : String) (v : α)
    (h : lookupStr m k = some v) : v ∈ m.map Prod.snd := by
  induction m with
  | nil => simp [lookupStr] at h
  | cons p rest ih =>
    obtain ⟨k2, v2⟩ := p
    by_cases hk : k2 = k
    · simp [lookupStr, hk] at h
      simp [h]
    · simp [lookupStr, hk] at h
      simpa using Or.inr (ih h)

theorem lookupStr_eq_none_of_not_mem {α : Type} (m : List (String × α)) (k : String)
    (h : k ∉ m.map Prod.fst) : lookupStr m k = none := by
  induction m with
  | nil => rfl
  | cons p rest ih =>
    obtain ⟨k2, v2⟩ := p
    simp only [List.map_cons, List.mem_cons] at h
    push_neg at h
    have hk2 : ¬ k2 = k := fun hh => h.1 hh.symm
    simp [lookupStr, hk2, ih h.2]

theorem lookupStr_of_decomp {α : Type} (l1 l2 : List (String × α)) (k : String) (w : α)
    (hnd : ((l1 ++ (k, w) :: l2).map Prod.fst).Nodup) :
    lookupStr (l1 ++ (k, w) :: l2) k = some w := by
  induction l1 with
  | nil => simp [lookupStr]
  | cons p rest ih =>
    obtain ⟨k2, v2⟩ := p
    simp only [List.cons_append, List.map_cons, List.nodup_cons] at hnd
    have hk2 : k2 ≠ k := by
      intro hh
      exact hnd.1 (by simp [hh])
    simp [lookupStr, hk2, ih hnd.2]

theorem addVote_keys (sc : List (String × ℚ)) (k : String) (v : ℚ) :
    (addVote sc k v).map Prod.fst =
      if k ∈ sc.map Prod.fst then sc.map Prod.fst else sc.map Prod.fst ++ [k] := by
  induction sc with
  | nil => simp [addVote]
  | cons p rest ih =>
    obtain ⟨k2, v2⟩ := p
    by_cases hk : k2 = k
    · subst hk
      simp [addVote]
    · have hk' : ¬ k = k2 := fun hh => hk hh.symm
      by_cases hm : k ∈ rest.map Prod.fst
      · simp [addVote, hk, ih, hm, hk']
      · simp [addVote, hk, ih, hm, hk']

theorem addVote_nodup (sc : List (String × ℚ)) (k : String) (v : ℚ)
    (h : (sc.map Prod.fst).Nodup) : ((addVote sc k v).map Prod.fst).Nodup := by
  rw [addVote_keys]
  split
  · exact h
  · rename_i hm
    simp only [List.nodup_append, List.nodup_cons, List.nodup_nil]
    refine ⟨h, by simp, ?_⟩
    intro a ha hb
    simp only [List.mem_singleton] at hb
    exact hm (hb ▸ ha)

theorem addVote_keys_sub (sc : List (String × ℚ)) (k : String) (v : ℚ)
    (x : String) (hx : x ∈ (addVote sc k v).map Prod.fst) :
    x ∈ sc.map Prod.fst ∨ x = k := by
  rw [addVote_keys] at hx
  split at hx
  · exact Or.inl hx
  · rcases List.mem_append.mp hx with h | h
    · exact Or.inl h
    · simp only [List.mem_singleton] at h
      exact Or.inr h

theorem addVote_snd_nonneg (sc : List (String × ℚ)) (k : String) (v : ℚ)
    (h : ∀ x ∈ sc.map Prod.snd, 0 ≤ x) (hv : 0 ≤ v) :
    ∀ x ∈ (addVote sc k v).map Prod.snd, 0 ≤ x := by
  induction sc with
  | nil =>
    intro x hx
    simp [addVote] at hx
    exact hx ▸ hv
  | cons p rest ih =>
    obtain ⟨k2, v2⟩ := p
    intro x hx
    by_cases hk : k2 = k
    · simp [addVote, hk] at hx
      rcases hx with hx | hx
      · exact hx ▸ add_nonneg (h v2 (by simp)) hv
      · exact h x (by simp [hx])
    · simp [addVote, hk] at hx
      rcases hx with hx | hx
      · exact hx ▸ h v2 (by simp)
      · exact ih (fun y hy => h y (by simp [hy])) x (by simpa using hx)

theorem pyNum_nonneg (o : Option ℚ) (h : ∀ s, o = some s → 0 ≤ s) : 0 ≤ pyNum o := by
  cases o with
  | none => norm_num [pyNum]
  | some v =>
    by_cases hv : v = 0
    · simp [pyNum, hv]
    · simpa [pyNum, hv] using h v rfl

theorem gestureToEmotion_mem (o : Option String) (g : String)
    (h : gestureToEmotion o = some g) : g ∈ emotionLabels := by
  cases o with
  | none => simp [gestureToEmotion] at h
  | some l =>
    by_cases hl : l = ""
    · simp [gestureToEmotion, hl] at h
    · simp only [gestureToEmotion, hl, if_false] at h
      have hm := lookupStr_mem_snd _ _ _ h
      simp only [gestureMapping, List.map_cons, List.map_nil, List.mem_cons,
        List.not_mem_nil, or_false] at hm
      rcases hm with h1 | h1 | h1 | h1 | h1 | h1 | h1 <;> subst h1 <;> decide

theorem textToEmotion_eq_chain (s : String) :
    textToEmotion s = firstMatch keywordChain s := rfl

theorem firstMatch_mem (chain : List ((String → Bool) × String)) (t : String)
    (h : ∀ p ∈ chain, p.2 ∈ emotionLabels) : firstMatch chain t ∈ emotionLabels := by
  induction chain with
  | nil => simp [firstMatch, emotionLabels]
  | cons p rest ih =>
    obtain ⟨c, l⟩ := p
    by_cases hc : c t
    · simpa [firstMatch, hc] using h (c, l) (by simp)
    · simpa [firstMatch, hc] using ih (fun q hq => h q (by simp [hq]))

theorem textToEmotion_mem (s : String) : textToEmotion s ∈ emotionLabels := by
  rw [textToEmotion_eq_chain]
  refine firstMatch_mem _ _ ?_
  intro p hp
  simp only [keywordChain, List.mem_cons, List.not_mem_nil, or_false] at hp
  rcases hp with h | h | h | h | h | h | h | h | h | h | h <;> subst h <;> decide

theorem maxByFirst_spec (rest : List (String × ℚ)) :
    ∀ k v, ∃ l1 w l2,
      (k, v) :: rest = l1 ++ (maxByFirst k v rest, w) :: l2
      ∧ (∀ p ∈ l1, p.2 < w) ∧ (∀ p ∈ (k, v) :: rest, p.2 ≤ w) := by
  induction rest with
  | nil =>
    intro k v
    exact ⟨[], v, [], by simp [maxByFirst], by simp, by simp [maxByFirst]⟩
  | cons p rest ih =>
    intro k v
    obtain ⟨k2, v2⟩ := p
    by_cases h : v2 > v
    · obtain ⟨l1, w, l2, heq, hlt, hle⟩ := ih k2 v2
      have hv2w : v2 ≤ w := hle (k2, v2) (by simp)
      refine ⟨(k, v) :: l1, w, l2, ?_, ?_, ?_⟩
      · simp only [maxByFirst, if_pos h, List.cons_append]
        exact congrArg (List.cons (k, v)) heq
      · intro q hq
        rcases List.mem_cons.mp hq with hq | hq
        · exact hq ▸ lt_of_lt_of_le h hv2w
        · exact hlt q hq
      · intro q hq
        rcases List.mem_cons.mp hq with hq | hq
        · exact hq ▸ le_of_lt (lt_of_lt_of_le h hv2w)
        · exact hle q hq
    · obtain ⟨l1, w, l2, heq, hlt, hle⟩ := ih k v
      have hvw : v ≤ w := hle (k, v) (by simp)
      have hv2v : v2 ≤ v := le_of_not_lt h
      cases l1 with
      | nil =>
        simp only [List.nil_append] at heq
        obtain ⟨hkw, hrest⟩ := List.cons_eq_cons.mp heq
        have hk1 : k = maxByFirst k v rest := congrArg Prod.fst hkw
        have hk2 : v = w := congrArg Prod.snd hkw
        refine ⟨[], w, (k2, v2) :: l2, ?_, by simp, ?_⟩
        · simp only [maxByFirst, if_neg h, List.nil_append]
          rw [← hk1, ← hk2, ← hrest]
        · intro q hq
          rcases List.mem_cons.mp hq with hq | hq
          · exact hq ▸ hvw
          · rcases List.mem_cons.mp hq with hq | hq
            · exact hq ▸ le_trans hv2v hvw
            · exact hle q (List.mem_cons_of_mem _ hq)
      | cons q0 l1' =>
        simp only [List.cons_append] at heq
        obtain ⟨hq0, hrest⟩ := List.cons_eq_cons.mp heq
        refine ⟨(k, v) :: (k2, v2) :: l1', w, l2, ?_, ?_, ?_⟩
        · simp only [maxByFirst, if_neg h, List.cons_append]
          exact congrArg (List.cons (k, v)) (congrArg (List.cons (k2, v2)) hrest)
        · intro q hq
          rcases List.mem_cons.mp hq with hq | hq
          · have hm : (k, v) ∈ q0 :: l1' := by simp [← hq0]
            exact hq ▸ hlt (k, v) hm
          · rcases List.mem_cons.mp hq with hq | hq
            · have hvlt : v < w := hlt (k, v) (by simp [← hq0])
              exact hq ▸ lt_of_le_of_lt hv2v hvlt
            · exact hlt q (by simp [hq])
        · intro q hq
          rcases List.mem_cons.mp hq with hq | hq
          · exact hq ▸ hvw
          · rcases List.mem_cons.mp hq with hq | hq
            · exact hq ▸ le_trans hv2v hvw
            · exact hle q (by simp [hq])

theorem argmaxFirst_spec (sc : List (String × ℚ)) (h : sc ≠ []) :
    ∃ l1 w l2,
      sc = l1 ++ (argmaxFirst sc, w) :: l2
      ∧ (∀ p ∈ l1, p.2 < w) ∧ (∀ p ∈ sc, p.2 ≤ w) := by
  cases sc with
  | nil => exact absurd rfl h
  | cons p rest =>
    obtain ⟨k, v⟩ := p
    exact maxByFirst_spec rest k v

/-- Entries whose face-channel label, when present, is a known label. -/
def okEmotion (e : MultimodalEntry) : Prop :=
  ∀ es, e.emotion = some es → ∀ d, es.dominant_emotion = some d → d ∈ emotionLabels

/-- Entries whose gesture score, when present, is nonnegative. -/
def okGesture (e : MultimodalEntry) : Prop :=
  ∀ g, e.gesture = some g → ∀ s, g.score = some s → 0 ≤ s

/-- Invariant of the accumulated score mapping: distinct keys, and under
the entry-level hypotheses, keys among the known labels and nonnegative
values. -/
def scoreInv (sc : List (String × ℚ)) : Prop :=
  (sc.map Prod.fst).Nodup
  ∧ (∀ k ∈ sc.map Prod.fst, k ∈ emotionLabels)
  ∧ (∀ x ∈ sc.map Prod.snd, 0 ≤ x)

theorem addVote_inv (sc : List (String × ℚ)) (k : String) (v : ℚ)
    (h : scoreInv sc) (hk : k ∈ emotionLabels) (hv : 0 ≤ v) :
    scoreInv (addVote sc k v) := by
  obtain ⟨h1, h2, h3⟩ := h
  refine ⟨addVote_nodup sc k v h1, ?_, addVote_snd_nonneg sc k v h3 hv⟩
  intro x hx
  rcases addVote_keys_sub sc k v x hx with hh | hh
  · exact h2 x hh
  · exact hh ▸ hk

theorem stepEntry_inv (sc : List (String × ℚ)) (e : MultimodalEntry)
    (he : okEmotion e) (hg : okGesture e) (h : scoreInv sc) :
    scoreInv (stepEntry sc e) := by
  have h1 : scoreInv (stepEmotion sc e) := by
    cases hem : e.emotion with
    | none => simp only [stepEmotion, hem]; exact h
    | some es =>
      cases hde : es.dominant_emotion with
      | none => simp only [stepEmotion, hem, hde]; exact h
      | some d =>
        by_cases hd : d = ""
        · simp only [stepEmotion, hem, hde, if_pos hd]; exact h
        · simp only [stepEmotion, hem, hde, if_neg hd]
          exact addVote_inv sc d (3/5) h (he es hem d hde) (by norm_num)
  have h2 : scoreInv (stepGesture (stepEmotion sc e) e) := by
    cases hge : e.gesture with
    | none => simp only [stepGesture, hge]; exact h1
    | some g =>
      cases hla : g.label with
      | none => simp only [stepGesture, hge, hla]; exact h1
      | some l =>
        by_cases hl : l = ""
        · simp only [stepGesture, hge, hla, if_pos hl]; exact h1
        · cases hmap : gestureToEmotion (some l) with
          | none => simp only [stepGesture, hge, hla, if_neg hl, hmap]; exact h1
          | some ge =>
            simp only [stepGesture, hge, hla, if_neg hl, hmap]
            have hnn : 0 ≤ 3/10 * pyNum g.score := by
              have := pyNum_nonneg g.score (fun s hs => hg g hge s hs)
              positivity
            exact addVote_inv _ ge _ h1 (gestureToEmotion_mem _ _ hmap) hnn
  by_cases ht : e.text = ""
  · simp only [stepEntry, stepText, if_pos ht]; exact h2
  · simp only [stepEntry, stepText, if_neg ht]
    exact addVote_inv _ (textToEmotion e.text) (1/10) h2 (textToEmotion_mem e.text)
      (by norm_num)

theorem foldl_scoreInv (entries : List MultimodalEntry) :
    ∀ sc, (∀ e ∈ entries, okEmotion e) → (∀ e ∈ entries, okGesture e) →
      scoreInv sc → scoreInv (entries.foldl stepEntry sc) := by
  induction entries with
  | nil => intro sc _ _ h; exact h
  | cons e rest ih =>
    intro sc he hg h
    simp only [List.foldl_cons]
    exact ih (stepEntry sc e)
      (fun e' h' => he e' (by simp [h']))
      (fun e' h' => hg e' (by simp [h']))
      (stepEntry_inv sc e (he e (by simp)) (hg e (by simp)) h)

theorem computeScores_inv (entries : List MultimodalEntry)
    (he : ∀ e ∈ entries, okEmotion e) (hg : ∀ e ∈ entries, okGesture e) :
    scoreInv (computeScores entries) :=
  foldl_scoreInv entries [] he hg ⟨by simp, by simp, by simp⟩

theorem computeScores_nodup (entries : List MultimodalEntry) :
    ((computeScores entries).map Prod.fst).Nodup := by
  have step : ∀ sc (e : MultimodalEntry), (sc.map Prod.fst).Nodup →
      ((stepEntry sc e).map Prod.fst).Nodup := by
    intro sc e h
    have h1 : ((stepEmotion sc e).map Prod.fst).Nodup := by
      cases hem : e.emotion with
      | none => simp only [stepEmotion, hem]; exact h
      | some es =>
        cases hde : es.dominant_emotion with
        | none => simp only [stepEmotion, hem, hde]; exact h
        | some d =>
          by_cases hd : d = ""
          · simp only [stepEmotion, hem, hde, if_pos hd]; exact h
          · simp only [stepEmotion, hem, hde, if_neg hd]
            exact addVote_nodup sc d (3/5) h
    have h2 : ((stepGesture (stepEmotion sc e) e).map Prod.fst).Nodup := by
      cases hge : e.gesture with
      | none => simp only [stepGesture, hge]; exact h1
      | some g =>
        cases hla : g.label with
        | none => simp only [stepGesture, hge, hla]; exact h1
        | some l =>
          by_cases hl : l = ""
          · simp only [stepGesture, hge, hla, if_pos hl]; exact h1
          · cases hmap : gestureToEmotion (some l) with
            | none => simp only [stepGesture, hge, hla, if_neg hl, hmap]; exact h1
            | some ge =>
              simp only [stepGesture, hge, hla, if_neg hl, hmap]
              exact addVote_nodup _ ge _ h1
    by_cases ht : e.text = ""
    · simp only [stepEntry, stepText, if_pos ht]; exact h2
    · simp only [stepEntry, stepText, if_neg ht]
      exact addVote_nodup _ (textToEmotion e.text) (1/10) h2
  have gen : ∀ (l : List MultimodalEntry) sc, (sc.map Prod.fst).Nodup →
      ((l.foldl stepEntry sc).map Prod.fst).Nodup := by
    intro l
    induction l with
    | nil => intro sc h; exact h
    | cons e rest ih =>
      intro sc h
      simp only [List.foldl_cons]
      exact ih (stepEntry sc e) (step sc e h)
  exact gen entries [] (by simp)

theorem rat_sum_nonneg (l : List ℚ) (h : ∀ x ∈ l, 0 ≤ x) : 0 ≤ l.sum := by
  induction l with
  | nil => simp
  | cons x rest ih =>
    simp only [List.sum_cons]
    exact add_nonneg (h x (by simp)) (ih (fun y hy => h y (by simp [hy])))

theorem rat_mem_le_sum (l : List ℚ) (h : ∀ x ∈ l, 0 ≤ x) (x : ℚ) (hx : x ∈ l) :
    x ≤ l.sum := by
  induction l with
  | nil => simp at hx
  | cons y rest ih =>
    simp only [List.sum_cons]
    rcases List.mem_cons.mp hx with hh | hh
    · subst hh
      have : 0 ≤ rest.sum := rat_sum_nonneg rest (fun z hz => h z (by simp [hz]))
      linarith
    · have h0 : 0 ≤ y := h y (by simp)
      have := ih (fun z hz => h z (by simp [hz])) hh
      linarith

theorem rat_sum_zero_all_zero (l : List ℚ) (h : ∀ x ∈ l, 0 ≤ x) (hs : l.sum = 0) :
    ∀ x ∈ l, x = 0 := by
  induction l with
  | nil => simp
  | cons y rest ih =>
    simp only [List.sum_cons] at hs
    have hy : 0 ≤ y := h y (by simp)
    have hr : 0 ≤ rest.sum := rat_sum_nonneg rest (fun z hz => h z (by simp [hz]))
    have hy0 : y = 0 := by linarith
    have hr0 : rest.sum = 0 := by linarith
    intro x hx
    rcases List.mem_cons.mp hx with hh | hh
    · exact hh ▸ hy0
    · exact ih (fun z hz => h z (by simp [hz])) hr0 x hh

theorem rhe_bounds (x : ℚ) : (⌊x⌋ : ℤ) ≤ rhe x ∧ rhe x ≤ ⌊x⌋ + 1 := by
  unfold rhe
  split_ifs <;> omega

theorem rhe_le_of_le (x : ℚ) (hx : x ≤ 1000) : rhe x ≤ 1000 := by
  have hfl : (⌊x⌋ : ℚ) ≤ x := Int.floor_le x
  unfold rhe
  split_ifs with h1 h2 h3
  · exact_mod_cast le_trans hfl hx
  · have hlt : (⌊x⌋ : ℚ) < 1000 := by linarith
    have h4 : ⌊x⌋ < 1000 := by exact_mod_cast hlt
    omega
  · exact_mod_cast le_trans hfl hx
  · have hge : 1/2 ≤ x - ⌊x⌋ := le_of_not_lt h1
    have hlt : (⌊x⌋ : ℚ) < 1000 := by linarith
    have h4 : ⌊x⌋ < 1000 := by exact_mod_cast hlt
    omega

theorem round3_mem01 (q : ℚ) (h0 : 0 ≤ q) (h1 : q ≤ 1) :
    0 ≤ round3 q ∧ round3 q ≤ 1 := by
  have hl := (rhe_bounds (q * 1000)).1
  have hf0 : (0 : ℤ) ≤ ⌊q * 1000⌋ := Int.floor_nonneg.mpr (by positivity)
  have hlow : (0 : ℤ) ≤ rhe (q * 1000) := le_trans hf0 hl
  have hup : rhe (q * 1000) ≤ 1000 := rhe_le_of_le (q * 1000) (by linarith)
  have hcl : (0 : ℚ) ≤ (rhe (q * 1000) : ℚ) := by exact_mod_cast hlow
  have hcu : ((rhe (q * 1000) : ℚ)) ≤ 1000 := by exact_mod_cast hup
  unfold round3
  constructor
  · positivity
  · linarith

theorem decomp_unique {α : Type} :
    ∀ (l1 L1 : List (String × α)) (p q : String × α) (l2 L2 : List (String × α)),
      p.1 = q.1 →
      l1 ++ p :: l2 = L1 ++ q :: L2 →
      ((l1 ++ p :: l2).map Prod.fst).Nodup →
      l1 = L1 ∧ p = q ∧ l2 = L2 := by
  intro l1
  induction l1 with
  | nil =>
    intro L1 p q l2 L2 hpq heq hnd
    cases L1 with
    | nil =>
      simp only [List.nil_append] at heq
      obtain ⟨h1, h2⟩ := List.cons_eq_cons.mp heq
      exact ⟨rfl, h1, h2⟩
    | cons Q L1' =>
      simp only [List.nil_append, List.cons_append] at heq
      obtain ⟨h1, h2⟩ := List.cons_eq_cons.mp heq
      simp only [List.nil_append, List.map_cons, List.nodup_cons] at hnd
      exfalso
      apply hnd.1
      have hq : q ∈ l2 := by
        rw [h2]
        exact List.mem_append.mpr (Or.inr (by simp))
      have : q.1 ∈ l2.map Prod.fst := List.mem_map.mpr ⟨q, hq, rfl⟩
      exact hpq ▸ this
  | cons r l1' ih =>
    intro L1 p q l2 L2 hpq heq hnd
    cases L1 with
    | nil =>
      simp only [List.nil_append, List.cons_append] at heq
      obtain ⟨h1, h2⟩ := List.cons_eq_cons.mp heq
      simp only [List.cons_append, List.map_cons, List.nodup_cons] at hnd
      exfalso
      apply hnd.1
      have hp : p ∈ l1' ++ p :: l2 := List.mem_append.mpr (Or.inr (by simp))
      have hmem : p.1 ∈ (l1' ++ p :: l2).map Prod.fst := List.mem_map.mpr ⟨p, hp, rfl⟩
      have hr1 : r.1 = p.1 := by rw [h1, hpq]
      exact hr1 ▸ hmem
    | cons Q L1' =>
      simp only [List.cons_append] at heq
      obtain ⟨h1, h2⟩ := List.cons_eq_cons.mp heq
      simp only [List.cons_append, List.map_cons, List.nodup_cons] at hnd
      obtain ⟨ha, hb, hc⟩ := ih L1' p q l2 L2 hpq h2 hnd.2
      exact ⟨by rw [h1, ha], hb, hc⟩

theorem lookupD_zero_or_mem (sc : List (String × ℚ)) (k : String) :
    lookupD sc k 0 = 0 ∨ lookupD sc k 0 ∈ sc.map Prod.snd := by
  unfold lookupD
  cases hls : lookupStr sc k with
  | none => simp
  | some v =>
    right
    simpa using lookupStr_mem_snd sc k v hls

theorem argmax_lookup (sc : List (String × ℚ)) (hne : sc ≠ [])
    (hnd : (sc.map Prod.fst).Nodup) :
    ∃ l1 l2, sc = l1 ++ (argmaxFirst sc, lookupD sc (argmaxFirst sc) 0) :: l2
      ∧ (∀ p ∈ l1, p.2 < lookupD sc (argmaxFirst sc) 0)
      ∧ (∀ p ∈ sc, p.2 ≤ lookupD sc (argmaxFirst sc) 0) := by
  obtain ⟨l1, w, l2, heq, hlt, hle⟩ := argmaxFirst_spec sc hne
  set a := argmaxFirst sc with ha
  have hnd2 : ((l1 ++ (a, w) :: l2).map Prod.fst).Nodup := by
    rw [← heq]
    exact hnd
  have hlook2 : lookupStr (l1 ++ (a, w) :: l2) a = some w :=
    lookupStr_of_decomp l1 l2 a w hnd2
  have hlook : lookupStr sc a = some w := by
    rw [heq]
    exact hlook2
  have hD : lookupD sc a 0 = w := by
    unfold lookupD
    rw [hlook]
    rfl
  refine ⟨l1, l2, ?_, hD ▸ hlt, hD ▸ hle⟩
  rw [hD]
  exact heq

theorem argmax_mem (sc : List (String × ℚ)) (hne : sc ≠ []) :
    argmaxFirst sc ∈ sc.map Prod.fst := by
  obtain ⟨l1, w, l2, heq, _, _⟩ := argmaxFirst_spec sc hne
  have hm : argmaxFirst sc ∈ (l1 ++ (argmaxFirst sc, w) :: l2).map Prod.fst := by
    simp
  rw [← heq] at hm
  exact hm

theorem isEmpty_false_of_ne_nil {α : Type} (l : List α) (h : l ≠ []) :
    l.isEmpty = false := by
  cases l with
  | nil => exact absurd rfl h
  | cons a t => rfl

theorem localAggregate_of_empty (entries : List MultimodalEntry)
    (h : computeScores entries = []) :
    localAggregate entries =
      { summary := mkSummary "neutral"
        emotion := "neutral"
        intent := lookupD intentMap "neutral" ""
        inner_voice := lookupD innerMap "neutral" ""
        confidence := round3 (1/5)
        raw := [] } := by
  unfold localAggregate
  rw [h]
  rfl

theorem localAggregate_emotion_of_ne (entries : List MultimodalEntry)
    (h : computeScores entries ≠ []) :
    (localAggregate entries).emotion = argmaxFirst (computeScores entries) := by
  unfold localAggregate
  simp [isEmpty_false_of_ne_nil _ h]

theorem localAggregate_confidence_of_ne (entries : List MultimodalEntry)
    (h : computeScores entries ≠ []) :
    (localAggregate entries).confidence =
      round3 (min 1 (lookupD (computeScores entries)
          (argmaxFirst (computeScores entries)) 0 /
        (if sumValues (computeScores entries) = 0 then 1
         else sumValues (computeScores entries)))) := by
  unfold localAggregate
  simp [isEmpty_false_of_ne_nil _ h]

theorem localAggregate_summary_eq (entries : List MultimodalEntry) :
    (localAggregate entries).summary = mkSummary (localAggregate entries).emotion := rfl

theorem localAggregate_intent_eq (entries : List MultimodalEntry) :
    (localAggregate entries).intent =
      lookupD intentMap (localAggregate entries).emotion "" := rfl

theorem localAggregate_inner_eq (entries : List MultimodalEntry) :
    (localAggregate entries).inner_voice =
      lookupD innerMap (localAggregate entries).emotion "" := rfl

/-! ### Sample entries used in witnesses and counterexamples -/

/-- An entry whose face channel reports `happy`. -/
def entryHappyFace : MultimodalEntry :=
  ⟨"t1", "", "video", none, none, some ⟨some "happy", none⟩, none⟩

/-- An entry whose face channel reports `angry`. -/
def entryAngryFace : MultimodalEntry :=
  ⟨"t2", "", "video", none, none, some ⟨some "angry", none⟩, none⟩

/-- An entry whose face channel reports a label outside the closed set. -/
def entryUnknownFace : MultimodalEntry :=
  ⟨"t3", "", "video", none, none, some ⟨some "excited", none⟩, none⟩

/-- An entry carrying a mapped gesture with a negative score. -/
def entryNegGesture : MultimodalEntry :=
  ⟨"t4", "", "gesture", none, none, none, some ⟨some "Closed_Fist", none, some (-3)⟩⟩

/-- An entry carrying a mapped gesture with score exactly 0. -/
def entryZeroGesture : MultimodalEntry :=
  ⟨"t5", "", "gesture", none, none, none, some ⟨some "Closed_Fist", none, some 0⟩⟩

/-- An entry carrying a mapped gesture with score 0.5. -/
def entryHalfGesture : MultimodalEntry :=
  ⟨"t6", "", "gesture", none, none, none, some ⟨some "Closed_Fist", none, some (1/2)⟩⟩

/-- An entry with no emotion, no gesture and empty text. -/
def entryVoteless : MultimodalEntry :=
  ⟨"t7", "", "mic", none, none, none, none⟩

/-- An entry with a `happy` face channel and a keyword-free text. -/
def entryHappyFaceText : MultimodalEntry :=
  ⟨"t8", "x", "video", none, none, some ⟨some "happy", none⟩, none⟩

/-! ### Claims -/

/-- Claim C3, corrected. `_text_to_emotion` always returns a label from the
closed set and never abstains.  The matching order, however, is: the six
Japanese keyword groups (happy, angry, fear, disgust, sad, surprise), then
the five English groups (happy, angry, fear, sad, surprise) — a single
fixed priority list over all eleven groups, not one pass per emotion
category: any Japanese keyword outranks every English keyword. -/
theorem c3_theorem (t : String) :
    textToEmotion t = firstMatch keywordChain t ∧ textToEmotion t ∈ emotionLabels :=
  ⟨textToEmotion_eq_chain t, textToEmotion_mem t⟩

/-- Claim C3, counterexample to the claim as stated: the text
`"great 怒"` contains an English happy keyword and a Japanese angry
keyword; the claimed priority (happy before angry) would give `"happy"`,
but the code returns `"angry"` because all Japanese groups are checked
before any English group. -/
theorem c3_counterexample :
    textToEmotion "great 怒" = "angry"
    ∧ "great" ∈ enHappy ∧ hasSub "great" (pyLower "great 怒") = true
    ∧ "怒" ∈ jpAngry ∧ hasSub "怒" "great 怒" = true := by
  refine ⟨rfl, by decide, by decide, by decide, by decide⟩

/-- Claim C5, corrected.  For an entry whose gesture label is in the fixed
table, the gesture channel adds `0.3 × score` to the mapped label — but the
multiplier falls back to `1.0` both when the score is absent **and** when
it equals 0 (Python `or` treats `0.0` as falsy).  A label outside the
table contributes nothing and causes no error. -/
theorem c5_theorem (sc : List (String × ℚ)) (e : MultimodalEntry)
    (g : GestureSnapshot) (hg : e.gesture = some g)
    (l : String) (hl : g.label = some l) (hlne : l ≠ "") :
    (∀ tgt, lookupStr gestureMapping l = some tgt →
      stepGesture sc e = addVote sc tgt (3/10 * pyNum g.score))
    ∧ (lookupStr gestureMapping l = none → stepGesture sc e = sc) := by
  constructor
  · intro tgt ht
    simp only [stepGesture, hg, hl, if_neg hlne, gestureToEmotion, ht]
  · intro ht
    simp only [stepGesture, hg, hl, if_neg hlne, gestureToEmotion, ht]

/-- Claim C5, witness: a `Closed_Fist` gesture (mapped to `angry`) with
score `0.5` contributes exactly `0.3 × 0.5 = 0.15`. -/
theorem c5_witness :
    stepGesture [] entryHalfGesture = [("angry", 3/10 * pyNum (some (1/2)))]
    ∧ (3/10 : ℚ) * pyNum (some (1/2)) = 3/20 := by
  constructor
  · exact (c5_theorem [] entryHalfGesture ⟨some "Closed_Fist", none, some (1/2)⟩ rfl
      "Closed_Fist" rfl (by decide)).1 "angry" rfl
  · norm_num [pyNum]

/-- Claim C5, counterexample to the claim as stated: a mapped gesture with
score exactly `0` contributes `0.3 × 1.0 = 0.3` (not `0.3 × 0 = 0`),
because `score or 1.0` treats `0.0` as absent. -/
theorem c5_counterexample :
    computeScores [entryZeroGesture] = [("angry", 3/10)]
    ∧ (3/10 : ℚ) ≠ 3/10 * 0 := by
  constructor
  · norm_num +decide [computeScores, stepEntry, stepText, stepGesture, stepEmotion,
      entryZeroGesture, gestureToEmotion, gestureMapping, lookupStr, addVote, pyNum]
  · norm_num

/-- Claim C9, confirmed.  An entry with no emotion, no gesture and empty
text adds no vote and causes no error, and when every entry of a non-empty
sequence is vote-less the estimator returns `"neutral"` with confidence
exactly 0.2. -/
theorem c9_theorem (entries : List MultimodalEntry) (hne : entries ≠ [])
    (hv : ∀ e ∈ entries, e.emotion = none ∧ e.gesture = none ∧ e.text = "") :
    (∀ sc, ∀ e ∈ entries, stepEntry sc e = sc)
    ∧ (localAggregate entries).emotion = "neutral"
    ∧ (localAggregate entries).confidence = 1/5 := by
  have hstep : ∀ sc (e : MultimodalEntry),
      e.emotion = none → e.gesture = none → e.text = "" → stepEntry sc e = sc := by
    intro sc e h1 h2 h3
    simp [stepEntry, stepText, stepGesture, stepEmotion, h1, h2, h3]
  have hfold : ∀ (l : List MultimodalEntry) sc,
      (∀ e ∈ l, e.emotion = none ∧ e.gesture = none ∧ e.text = "") →
      l.foldl stepEntry sc = sc := by
    intro l
    induction l with
    | nil => intro sc _; rfl
    | cons e rest ih =>
      intro sc hl
      obtain ⟨h1, h2, h3⟩ := hl e (by simp)
      simp only [List.foldl_cons, hstep sc e h1 h2 h3]
      exact ih sc (fun e' h' => hl e' (by simp [h']))
  have hcs : computeScores entries = [] := hfold entries [] hv
  have hagg := localAggregate_of_empty entries hcs
  refine ⟨?_, ?_, ?_⟩
  · intro sc e he
    obtain ⟨h1, h2, h3⟩ := hv e he
    exact hstep sc e h1 h2 h3
  · rw [hagg]
  · rw [hagg]
    norm_num [round3, rhe]

/-- Claim C9, witness at a single fully vote-less entry. -/
theorem c9_witness :
    (localAggregate [entryVoteless]).emotion = "neutral"
    ∧ (localAggregate [entryVoteless]).confidence = 1/5 :=
  (c9_theorem [entryVoteless] (List.cons_ne_nil _ _) (by decide)).2

/-- Claim C10, confirmed.  When the dominant label is outside the seven
known labels (possible because the face channel is credited verbatim), the
estimator still returns normally, `intent` and `inner_voice` are the empty
string (`dict.get(·, '')`), and the summary embeds the unknown label in
the fixed template. -/
theorem c10_theorem (entries : List MultimodalEntry)
    (hu : (localAggregate entries).emotion ∉ emotionLabels) :
    (localAggregate entries).intent = ""
    ∧ (localAggregate entries).inner_voice = ""
    ∧ (localAggregate entries).summary =
        mkSummary (localAggregate entries).emotion := by
  have hsubI : ∀ k ∈ intentMap.map Prod.fst, k ∈ emotionLabels := by
    intro k hk
    fin_cases hk <;> decide
  have hsubV : ∀ k ∈ innerMap.map Prod.fst, k ∈ emotionLabels := by
    intro k hk
    fin_cases hk <;> decide
  refine ⟨?_, ?_, localAggregate_summary_eq entries⟩
  · rw [localAggregate_intent_eq]
    unfold lookupD
    rw [lookupStr_eq_none_of_not_mem _ _ (fun hm => hu (hsubI _ hm))]
    rfl
  · rw [localAggregate_inner_eq]
    unfold lookupD
    rw [lookupStr_eq_none_of_not_mem _ _ (fun hm => hu (hsubV _ hm))]
    rfl

/-- Claim C10, witness: a face channel reporting `excited` dominates and
yields empty intent/inner voice and the templated summary. -/
theorem c10_witness :
    (localAggregate [entryUnknownFace]).intent = ""
    ∧ (localAggregate [entryUnknownFace]).inner_voice = ""
    ∧ (localAggregate [entryUnknownFace]).summary =
        mkSummary (localAggregate [entryUnknownFace]).emotion :=
  c10_theorem [entryUnknownFace] (by decide)

/-- Claim C1, corrected.  The estimator's emotion is only guaranteed to be
in the closed set when every present `dominant_emotion` is itself in the
closed set (the face channel is credited verbatim), and the confidence is
only guaranteed to lie in `[0, 1]` when every present gesture score is
nonnegative (scores are not clamped). -/
theorem c1_theorem (entries : List MultimodalEntry) (hne : entries ≠ [])
    (he : ∀ e ∈ entries, okEmotion e) (hg : ∀ e ∈ entries, okGesture e) :
    (localAggregate entries).emotion ∈ emotionLabels
    ∧ 0 ≤ (localAggregate entries).confidence
    ∧ (localAggregate entries).confidence ≤ 1 := by
  obtain ⟨hnd, hkeys, hvals⟩ := computeScores_inv entries he hg
  by_cases hcs : computeScores entries = []
  · rw [localAggregate_of_empty entries hcs]
    refine ⟨by decide, ?_, ?_⟩ <;> norm_num [round3, rhe]
  · constructor
    · rw [localAggregate_emotion_of_ne _ hcs]
      exact hkeys _ (argmax_mem _ hcs)
    · rw [localAggregate_confidence_of_ne _ hcs]
      have hv0 : 0 ≤ lookupD (computeScores entries)
          (argmaxFirst (computeScores entries)) 0 := by
        rcases lookupD_zero_or_mem (computeScores entries)
            (argmaxFirst (computeScores entries)) with h | h
        · rw [h]
        · exact hvals _ h
      have hs0 : 0 ≤ sumValues (computeScores entries) :=
        rat_sum_nonneg _ hvals
      by_cases hz : sumValues (computeScores entries) = 0
      · have hv00 : lookupD (computeScores entries)
            (argmaxFirst (computeScores entries)) 0 = 0 := by
          rcases lookupD_zero_or_mem (computeScores entries)
              (argmaxFirst (computeScores entries)) with h | h
          · exact h
          · exact rat_sum_zero_all_zero _ hvals hz _ h
        rw [hz]
        simp only [if_pos rfl, hv00]
        norm_num [round3, rhe]
      · have hspos : 0 < sumValues (computeScores entries) :=
          lt_of_le_of_ne hs0 (Ne.symm hz)
        have hvs : lookupD (computeScores entries)
            (argmaxFirst (computeScores entries)) 0 ≤
            sumValues (computeScores entries) := by
          rcases lookupD_zero_or_mem (computeScores entries)
              (argmaxFirst (computeScores entries)) with h | h
          · rw [h]; exact hs0
          · exact rat_mem_le_sum _ hvals _ h
        rw [if_neg hz]
        have hm0 : 0 ≤ min 1 (lookupD (computeScores entries)
            (argmaxFirst (computeScores entries)) 0 /
            sumValues (computeScores entries)) :=
          le_min (by norm_num) (div_nonneg hv0 hs0)
        have hm1 : min 1 (lookupD (computeScores entries)
            (argmaxFirst (computeScores entries)) 0 /
            sumValues (computeScores entries)) ≤ 1 := min_le_left _ _
        exact round3_mem01 _ hm0 hm1

/-- Claim C1, counterexample to the claim as stated: a face channel
reporting `excited` makes the returned emotion leave the closed set, and a
mapped gesture with score `-3` combined with a `happy` face makes the
total negative and the returned confidence equal to `-2`. -/
theorem c1_counterexample :
    (localAggregate [entryUnknownFace]).emotion ∉ emotionLabels
    ∧ (localAggregate [entryNegGesture, entryHappyFace]).confidence < 0 := by
  constructor
  · decide
  · norm_num +decide [localAggregate, computeScores, stepEntry, stepText, stepGesture, stepEmotion, gestureToEmotion, gestureMapping, lookupStr, lookupD, addVote, pyNum, argmaxFirst, maxByFirst, sumValues, round3, rhe, textToEmotion, hasSub, findSubIdx, listPrefix, pyLower, charLower, intentMap, innerMap, mkSummary, emotionLabels, jpHappy, jpAngry, jpFear, jpDisgust, jpSad, enHappy, enAngry, enFear, enSad, enSurprise, entryNegGesture, entryHappyFace]

/-- Claim C1, witness at a single well-formed `happy` entry. -/
theorem c1_witness :
    (localAggregate [entryHappyFace]).emotion ∈ emotionLabels
    ∧ 0 ≤ (localAggregate [entryHappyFace]).confidence
    ∧ (localAggregate [entryHappyFace]).confidence ≤ 1 := by
  refine c1_theorem [entryHappyFace] (List.cons_ne_nil _ _) ?_ ?_
  · intro e hme es hes d hd
    simp only [List.mem_singleton] at hme
    subst hme
    rw [show entryHappyFace.emotion = some ⟨some "happy", none⟩ from rfl] at hes
    injection hes with h1
    subst h1
    injection hd with h2
    subst h2
    decide
  · intro e hme g hge
    simp only [List.mem_singleton] at hme
    subst hme
    rw [show entryHappyFace.gesture = none from rfl] at hge
    cases hge

/-- Claim C4, corrected.  With a non-empty accumulated mapping, the
dominant emotion is the label carrying the maximum accumulated score, ties
broken in favor of the earliest-inserted label (everything strictly before
the winner scores strictly less), and the confidence equals the winner's
score divided by the total (with 1.0 substituted for a zero total), capped
at 1.0 — and then **rounded to three decimal places** by `round(·, 3)`,
which the claim as stated omits. -/
theorem c4_theorem (entries : List MultimodalEntry)
    (hne : computeScores entries ≠ []) :
    (localAggregate entries).emotion ∈ (computeScores entries).map Prod.fst
    ∧ (∀ p ∈ computeScores entries,
        p.2 ≤ lookupD (computeScores entries) (localAggregate entries).emotion 0)
    ∧ (∀ l1 p l2, computeScores entries = l1 ++ p :: l2 →
        p.1 = (localAggregate entries).emotion →
        ∀ q ∈ l1, q.2 < lookupD (computeScores entries)
          (localAggregate entries).emotion 0)
    ∧ (localAggregate entries).confidence =
        round3 (min 1 (lookupD (computeScores entries)
            (localAggregate entries).emotion 0 /
          (if sumValues (computeScores entries) = 0 then 1
           else sumValues (computeScores entries)))) := by
  have hem := localAggregate_emotion_of_ne entries hne
  have hnd := computeScores_nodup entries
  obtain ⟨l1, l2, heq, hlt, hle⟩ := argmax_lookup (computeScores entries) hne hnd
  refine ⟨?_, ?_, ?_, ?_⟩
  · rw [hem]
    exact argmax_mem _ hne
  · rw [hem]
    exact hle
  · rw [hem]
    intro l1' p l2' hdec hp q hq
    have hnd2 : ((l1' ++ p :: l2').map Prod.fst).Nodup := by
      rw [← hdec]
      exact hnd
    have heq2 : l1' ++ p :: l2' =
        l1 ++ (argmaxFirst (computeScores entries),
          lookupD (computeScores entries)
            (argmaxFirst (computeScores entries)) 0) :: l2 :=
      hdec.symm.trans heq
    obtain ⟨ha, _, _⟩ := decomp_unique l1' l1 p
      (argmaxFirst (computeScores entries),
        lookupD (computeScores entries) (argmaxFirst (computeScores entries)) 0)
      l2' l2 hp heq2 hnd2
    exact hlt q (ha ▸ hq)
  · rw [hem]
    exact localAggregate_confidence_of_ne entries hne

/-- Claim C4, witness: two entries producing exactly tied scores for
`happy` (seen first) and `angry`. -/
theorem c4_witness :
    (localAggregate [entryHappyFace, entryAngryFace]).emotion ∈
      (computeScores [entryHappyFace, entryAngryFace]).map Prod.fst
    ∧ (localAggregate [entryHappyFace, entryAngryFace]).confidence =
        round3 (min 1 (lookupD (computeScores [entryHappyFace, entryAngryFace])
            (localAggregate [entryHappyFace, entryAngryFace]).emotion 0 /
          (if sumValues (computeScores [entryHappyFace, entryAngryFace]) = 0 then 1
           else sumValues (computeScores [entryHappyFace, entryAngryFace])))) :=
  ⟨(c4_theorem [entryHappyFace, entryAngryFace] (by decide)).1,
   (c4_theorem [entryHappyFace, entryAngryFace] (by decide)).2.2.2⟩

/-- Claim C4, counterexample to the claim as stated: a `happy` face plus a
keyword-free text accumulate scores 0.6 and 0.1; the claimed confidence is
`0.6 / 0.7 = 6/7`, but the code returns `round(6/7, 3) = 0.857 ≠ 6/7`. -/
theorem c4_counterexample :
    (localAggregate [entryHappyFaceText]).emotion = "happy"
    ∧ (localAggregate [entryHappyFaceText]).confidence = 857/1000
    ∧ (localAggregate [entryHappyFaceText]).confidence ≠
        min 1 (lookupD (computeScores [entryHappyFaceText]) "happy" 0 /
          sumValues (computeScores [entryHappyFaceText])) := by
  refine ⟨?_, ?_, ?_⟩ <;>
    norm_num +decide [localAggregate, computeScores, stepEntry, stepText, stepGesture, stepEmotion, gestureToEmotion, gestureMapping, lookupStr, lookupD, addVote, pyNum, argmaxFirst, maxByFirst, sumValues, round3, rhe, textToEmotion, hasSub, findSubIdx, listPrefix, pyLower, charLower, intentMap, innerMap, mkSummary, emotionLabels, jpHappy, jpAngry, jpFear, jpDisgust, jpSad, enHappy, enAngry, enFear, enSad, enSurprise, entryHappyFaceText]

theorem pyOr_pos (o : Option JsonVal) (b v : JsonVal)
    (h : o = some v) (ht : truthy v = true) : pyOr o b = v := by
  subst h
  simp [pyOr, ht]

theorem pyOr_falsy (o : Option JsonVal) (b : JsonVal)
    (h : ∀ v, o = some v → truthy v = false) : pyOr o b = b := by
  cases o with
  | none => rfl
  | some v => simp [pyOr, h v rfl]

/-- Claim C2, confirmed.  When `_call_gemini` raises for any reason
(missing credential, timeout, connection failure, bad response), the
endpoint catches the exception, sets `result = {}`, and the merged
response carries exactly the Local Fusion Estimator's five fields with
`raw = None`; moreover the endpoint returns a success for every possible
LLM outcome once the entry list is non-empty. -/
theorem c2_theorem (entries : List MultimodalEntry) (hne : entries ≠ []) :
    analyze entries (.error ()) = .ok
      [("summary", .str (localAggregate entries).summary),
       ("emotion", .str (localAggregate entries).emotion),
       ("intent", .str (localAggregate entries).intent),
       ("inner_voice", .str (localAggregate entries).inner_voice),
       ("confidence", .num (localAggregate entries).confidence),
       ("raw", JsonVal.null)]
    ∧ ∀ llm : Except Unit PyDict, ∃ m, analyze entries llm = .ok m := by
  have hie := isEmpty_false_of_ne_nil entries hne
  constructor
  · simp only [analyze, hie, Bool.false_eq_true, if_false]
    rfl
  · intro llm
    exact ⟨_, by simp only [analyze, hie, Bool.false_eq_true, if_false]; rfl⟩

/-- Claim C2, witness at a single `happy` entry. -/
theorem c2_witness :
    analyze [entryHappyFace] (.error ()) = .ok
      [("summary", .str (localAggregate [entryHappyFace]).summary),
       ("emotion", .str (localAggregate [entryHappyFace]).emotion),
       ("intent", .str (localAggregate [entryHappyFace]).intent),
       ("inner_voice", .str (localAggregate [entryHappyFace]).inner_voice),
       ("confidence", .num (localAggregate [entryHappyFace]).confidence),
       ("raw", JsonVal.null)] :=
  (c2_theorem [entryHappyFace] (List.cons_ne_nil _ _)).1

/-- Claim C6, confirmed.  The merger decides each of the five content
fields independently: a present truthy LLM value is kept, an absent or
falsy one (including a confidence equal to 0) falls back to the local
value for that field, and `raw` is taken solely from the LLM result with
`None` as default. -/
theorem c6_theorem (entries : List MultimodalEntry) (d : PyDict)
    (hne : entries ≠ []) :
    analyze entries (.ok d) = .ok (mergeDicts d (localAggregate entries))
    ∧ ((∀ v, pyGet d "summary" = some v → truthy v = true →
          pyGet (mergeDicts d (localAggregate entries)) "summary" = some v)
      ∧ ((∀ v, pyGet d "summary" = some v → truthy v = false) →
          pyGet (mergeDicts d (localAggregate entries)) "summary" =
            some (.str (localAggregate entries).summary)))
    ∧ ((∀ v, pyGet d "emotion" = some v → truthy v = true →
          pyGet (mergeDicts d (localAggregate entries)) "emotion" = some v)
      ∧ ((∀ v, pyGet d "emotion" = some v → truthy v = false) →
          pyGet (mergeDicts d (localAggregate entries)) "emotion" =
            some (.str (localAggregate entries).emotion)))
    ∧ ((∀ v, pyGet d "intent" = some v → truthy v = true →
          pyGet (mergeDicts d (localAggregate entries)) "intent" = some v)
      ∧ ((∀ v, pyGet d "intent" = some v → truthy v = false) →
          pyGet (mergeDicts d (localAggregate entries)) "intent" =
            some (.str (localAggregate entries).intent)))
    ∧ ((∀ v, pyGet d "inner_voice" = some v → truthy v = true →
          pyGet (mergeDicts d (localAggregate entries)) "inner_voice" = some v)
      ∧ ((∀ v, pyGet d "inner_voice" = some v → truthy v = false) →
          pyGet (mergeDicts d (localAggregate entries)) "inner_voice" =
            some (.str (localAggregate entries).inner_voice)))
    ∧ ((∀ v, pyGet d "confidence" = some v → truthy v = true →
          pyGet (mergeDicts d (localAggregate entries)) "confidence" = some v)
      ∧ ((∀ v, pyGet d "confidence" = some v → truthy v = false) →
          pyGet (mergeDicts d (localAggregate entries)) "confidence" =
            some (.num (localAggregate entries).confidence)))
    ∧ (pyGet d "confidence" = some (.num 0) →
        pyGet (mergeDicts d (localAggregate entries)) "confidence" =
          some (.num (localAggregate entries).confidence))
    ∧ pyGet (mergeDicts d (localAggregate entries)) "raw" =
        some ((pyGet d "raw").getD JsonVal.null) := by
  have hie := isEmpty_false_of_ne_nil entries hne
  have hS : pyGet (mergeDicts d (localAggregate entries)) "summary" =
      some (pyOr (pyGet d "summary") (.str (localAggregate entries).summary)) := rfl
  have hE : pyGet (mergeDicts d (localAggregate entries)) "emotion" =
      some (pyOr (pyGet d "emotion") (.str (localAggregate entries).emotion)) := rfl
  have hI : pyGet (mergeDicts d (localAggregate entries)) "intent" =
      some (pyOr (pyGet d "intent") (.str (localAggregate entries).intent)) := rfl
  have hV : pyGet (mergeDicts d (localAggregate entries)) "inner_voice" =
      some (pyOr (pyGet d "inner_voice")
        (.str (localAggregate entries).inner_voice)) := rfl
  have hC : pyGet (mergeDicts d (localAggregate entries)) "confidence" =
      some (pyOr (pyGet d "confidence")
        (.num (localAggregate entries).confidence)) := rfl
  refine ⟨by simp only [analyze, hie, Bool.false_eq_true, if_false], ?_, ?_, ?_, ?_, ?_, ?_, ?_⟩
  · exact ⟨fun v h ht => by rw [hS, pyOr_pos _ _ _ h ht],
      fun h => by rw [hS, pyOr_falsy _ _ h]⟩
  · exact ⟨fun v h ht => by rw [hE, pyOr_pos _ _ _ h ht],
      fun h => by rw [hE, pyOr_falsy _ _ h]⟩
  · exact ⟨fun v h ht => by rw [hI, pyOr_pos _ _ _ h ht],
      fun h => by rw [hI, pyOr_falsy _ _ h]⟩
  · exact ⟨fun v h ht => by rw [hV, pyOr_pos _ _ _ h ht],
      fun h => by rw [hV, pyOr_falsy _ _ h]⟩
  · exact ⟨fun v h ht => by rw [hC, pyOr_pos _ _ _ h ht],
      fun h => by rw [hC, pyOr_falsy _ _ h]⟩
  · intro h
    rw [hC, pyOr_falsy]
    intro v hv
    rw [h] at hv
    injection hv with hv2
    rw [← hv2]
    rfl
  · rfl

/-- Claim C6, witness: an LLM dict populating only `emotion`; the merged
`emotion` is the LLM's and the merged `confidence` is the local one. -/
theorem c6_witness :
    pyGet (mergeDicts [("emotion", JsonVal.str "happy")]
      (localAggregate [entryHappyFace])) "emotion" = some (JsonVal.str "happy")
    ∧ pyGet (mergeDicts [("emotion", JsonVal.str "happy")]
        (localAggregate [entryHappyFace])) "confidence" =
      some (JsonVal.num (localAggregate [entryHappyFace]).confidence) := by
  constructor
  · exact ((c6_theorem [entryHappyFace] [("emotion", JsonVal.str "happy")]
      (List.cons_ne_nil _ _)).2.2.1).1 (JsonVal.str "happy") rfl rfl
  · refine ((c6_theorem [entryHappyFace] [("emotion", JsonVal.str "happy")]
      (List.cons_ne_nil _ _)).2.2.2.2.2.1).2 ?_
    intro v hv
    rw [show pyGet [("emotion", JsonVal.str "happy")] "confidence" = none from rfl] at hv
    exact Option.noConfusion hv

/-- Claim C7, corrected.  `_parse_json_from_text` on empty text yields
nothing; when a fenced code block is present, its content is parsed and on
failure control passes **directly to the brace slice — the direct parse of
the whole text is skipped**; only when no fenced block is present is the
whole text parsed directly, with the brace slice as fallback; when every
attempted strategy fails the function returns no value instead of
raising. -/
theorem c7_theorem (txt : String) :
    (txt = "" → parseJsonFromText txt = none)
    ∧ (txt ≠ "" → ∀ c, fenceSearch txt = some c →
        parseJsonFromText txt = pyAlt (miniLoads c) (braceSlice txt))
    ∧ (txt ≠ "" → fenceSearch txt = none →
        parseJsonFromText txt = pyAlt (miniLoads txt) (braceSlice txt))
    ∧ (txt ≠ "" → (∀ c, fenceSearch txt = some c → miniLoads c = none) →
        miniLoads txt = none → braceSlice txt = none →
        parseJsonFromText txt = none) := by
  refine ⟨?_, ?_, ?_, ?_⟩
  · intro h
    simp [parseJsonFromText, h]
  · intro h c hf
    simp [parseJsonFromText, h, hf]
  · intro h hf
    simp [parseJsonFromText, h, hf]
  · intro h hall hdir hbr
    cases hf : fenceSearch txt with
    | none => simp [parseJsonFromText, h, hf, hdir, hbr, pyAlt]
    | some c => simp [parseJsonFromText, h, hf, hall c hf, hbr, pyAlt]

/-- Claim C7, counterexample to the claim as stated: the text
`"```x```"` (a quoted string containing a fenced block) is valid JSON as a
whole, so the claimed chain — (a) fenced block, then (b) direct parse —
would return the parsed string; the code instead parses the fence content
`x`, fails, skips the direct parse, finds no braces, and returns
nothing. -/
theorem c7_counterexample :
    parseJsonFromText "\"\x60\x60\x60x\x60\x60\x60\"" = none
    ∧ miniLoads "\"\x60\x60\x60x\x60\x60\x60\"" =
        some (JsonVal.str "\x60\x60\x60x\x60\x60\x60") :=
  ⟨rfl, rfl⟩

/-- A demo LLM reply: prose surrounding a fenced json block. -/
def fenceDemoText : String :=
  "pre \x60\x60\x60json \x7b\"a\": 1\x7d\x60\x60\x60 post"

/-- The capture of the fence regex on `fenceDemoText`. -/
def fenceDemoContent : String := "\x7b\"a\": 1\x7d"

/-- Claim C7, witness: a fenced `json` block inside surrounding prose is
found and its content is handed to the JSON parser, short-circuiting on
success. -/
theorem c7_witness :
    parseJsonFromText fenceDemoText =
      pyAlt (miniLoads fenceDemoContent) (braceSlice fenceDemoText) :=
  (c7_theorem fenceDemoText).2.1 (by decide) fenceDemoContent rfl

/-- Claim C8, confirmed.  When the HTTP call succeeds but no JSON object
can be extracted from the response text, `_call_gemini` returns the
degraded result (truncated/stripped summary or fixed placeholder, neutral
emotion, fixed intent and inner voice, confidence 0.3, the full payload as
`raw`), and the merged endpoint response then carries confidence 0.3,
emotion `"neutral"`, and the full payload as `raw`. -/
theorem c8_theorem (payload : JsonVal) (entries : List MultimodalEntry)
    (hne : entries ≠ [])
    (hp : ∀ fields, parseJsonFromText (extractTexts payload) ≠
      some (JsonVal.obj fields)) :
    callGeminiPost payload = degraded (extractTexts payload) payload
    ∧ analyze entries (.ok (callGeminiPost payload)) =
        .ok (mergeDicts (degraded (extractTexts payload) payload)
          (localAggregate entries))
    ∧ pyGet (mergeDicts (degraded (extractTexts payload) payload)
        (localAggregate entries)) "confidence" = some (.num (3/10))
    ∧ pyGet (mergeDicts (degraded (extractTexts payload) payload)
        (localAggregate entries)) "emotion" = some (.str "neutral")
    ∧ pyGet (mergeDicts (degraded (extractTexts payload) payload)
        (localAggregate entries)) "raw" = some payload := by
  have hie := isEmpty_false_of_ne_nil entries hne
  have h1 : callGeminiPost payload = degraded (extractTexts payload) payload := by
    cases hpp : parseJsonFromText (extractTexts payload) with
    | none => simp only [callGeminiPost, hpp]
    | some v =>
      cases v with
      | obj fields => exact absurd hpp (hp fields)
      | null => simp only [callGeminiPost, hpp]
      | bool b => simp only [callGeminiPost, hpp]
      | num q => simp only [callGeminiPost, hpp]
      | str s => simp only [callGeminiPost, hpp]
      | arr xs => simp only [callGeminiPost, hpp]
  refine ⟨h1, ?_, ?_, ?_, ?_⟩
  · rw [h1]
    simp only [analyze, hie, Bool.false_eq_true, if_false]
  · have hT : truthy (JsonVal.num (3/10)) = true := by norm_num [truthy]
    exact congrArg some
      (pyOr_pos (pyGet (degraded (extractTexts payload) payload) "confidence")
        (.num (localAggregate entries).confidence) (.num (3/10)) rfl hT)
  · rfl
  · rfl

/-- Claim C8, witness: a payload with no usable candidates yields the
empty extracted text, parsing yields nothing, and the degraded result
flows through the merge. -/
theorem c8_witness :
    callGeminiPost JsonVal.null = degraded (extractTexts JsonVal.null) JsonVal.null
    ∧ analyze [entryHappyFace] (.ok (callGeminiPost JsonVal.null)) =
        .ok (mergeDicts (degraded (extractTexts JsonVal.null) JsonVal.null)
          (localAggregate [entryHappyFace]))
    ∧ pyGet (mergeDicts (degraded (extractTexts JsonVal.null) JsonVal.null)
        (localAggregate [entryHappyFace])) "confidence" = some (.num (3/10))
    ∧ pyGet (mergeDicts (degraded (extractTexts JsonVal.null) JsonVal.null)
        (localAggregate [entryHappyFace])) "emotion" = some (.str "neutral")
    ∧ pyGet (mergeDicts (degraded (extractTexts JsonVal.null) JsonVal.null)
        (localAggregate [entryHappyFace])) "raw" = some JsonVal.null := by
  refine c8_theorem JsonVal.null [entryHappyFace] (List.cons_ne_nil _ _) ?_
  intro fields h
  rw [show parseJsonFromText (extractTexts JsonVal.null) = none from rfl] at h
  exact Option.noConfusion h

end GeminiFusion
